import Mathlib

set_option maxRecDepth 10000
set_option maxHeartbeats 1000000

/-
Verification of the MySQL binlog connector core
(`replicators/src/mysql_connector/connector.rs`): binlog position algebra,
checksum validation, value coercion and the event-to-action dispatcher,
shallowly embedded in Lean.
-/

namespace ReadysetBinlog

/-- Decidable equality for fallible results, used to settle concrete
evaluations of the embedded functions. -/
instance exceptDecidableEq {ε α : Type} [DecidableEq ε] [DecidableEq α] :
    DecidableEq (Except ε α) := fun a b =>
  match a, b with
  | .ok x, .ok y => decidable_of_iff (x = y) (by simp)
  | .error e, .error f => decidable_of_iff (e = f) (by simp)
  | .ok _, .error _ => isFalse (by simp)
  | .error _, .ok _ => isFalse (by simp)

/-- A position inside a MySQL binlog, `super::BinlogPosition`:
a log file name and a byte offset (`u32` in the source, embedded as `Nat`). -/
structure BinlogPosition where
  binlog_file : String
  position : Nat
  deriving DecidableEq, Repr

/-- `readyset_client::replication::ReplicationOffset`: a 128-bit packed
offset (`u128`, embedded as `Nat`, reduced mod `2 ^ 128` where the source
arithmetic is performed on `u128`) plus the log basename. -/
structure ReplicationOffset where
  offset : Nat
  replication_log_name : String
  deriving DecidableEq, Repr

/-- Numeric value of an ASCII decimal digit (code points 48 to 57),
`none` for any other char. -/
def digitVal (c : Char) : Option Nat :=
  if 48 ≤ c.toNat ∧ c.toNat ≤ 57 then some (c.toNat - 48) else none

/-- Accumulating decimal parser over a list of characters: fails on the
first non-digit character. -/
def parseDigitsAux : Nat → List Char → Option Nat
  | acc, [] => some acc
  | acc, c :: cs =>
    match digitVal c with
    | some d => parseDigitsAux (acc * 10 + d) cs
    | none => none

/-- Parse a non-empty all-digit character list as a decimal `Nat`. -/
def parseDigits : List Char → Option Nat
  | [] => none
  | c :: cs => parseDigitsAux 0 (c :: cs)

/-- Strip one optional leading ASCII plus sign, as Rust's unsigned
`str::parse` accepts. -/
def stripPlus : List Char → List Char
  | '+' :: rest => rest
  | s => s

/-- Embedding of Rust `str::parse::<uN>`: optional leading plus sign,
then at least one decimal digit, error when the value reaches `bound`
(`bound` is `2 ^ N`), exactly as overflow makes the Rust parse fail. -/
def rustParseUnsigned (bound : Nat) (s : List Char) : Option Nat :=
  match parseDigits (stripPlus s) with
  | some v => if v < bound then some v else none
  | none => none

/-- Embedding of `str::rsplit_once(sep)`: split at the last occurrence of
`sep`, returning the part before and after it, or `none` when absent. -/
def rsplitOnce (sep : Char) : List Char → Option (List Char × List Char)
  | [] => none
  | c :: cs =>
    match rsplitOnce sep cs with
    | some (pre, suf) => some (c :: pre, suf)
    | none => if c = sep then some ([], cs) else none

/-- Embedding of `str::split_once(sep)`: split at the first occurrence. -/
def splitOnce (sep : Char) : List Char → Option (List Char × List Char)
  | [] => none
  | c :: cs =>
    if c = sep then some ([], cs)
    else
      match splitOnce sep cs with
      | some (pre, suf) => some (c :: pre, suf)
      | none => none

/-- Embedding of `impl PartialOrd for BinlogPosition` (connector.rs:58-84):
byte-identical file names compare by `position`; otherwise both names are
split at the last dot, differing basenames (or a failed split or a failed
`u64` suffix parse) are incomparable, and equal basenames compare by the
parsed numeric suffixes. -/
def positionCmp (a b : BinlogPosition) : Option Ordering :=
  if a.binlog_file = b.binlog_file then
    some (compare a.position b.position)
  else
    match rsplitOnce '.' a.binlog_file.toList, rsplitOnce '.' b.binlog_file.toList with
    | some (basename, suffix), some (obasename, osuffix) =>
      if basename = obasename then
        match rustParseUnsigned (2 ^ 64) suffix, rustParseUnsigned (2 ^ 64) osuffix with
        | some s, some os => some (compare s os)
        | _, _ => none
      else none
    | _, _ => none

/-- Embedding of `TryFrom<&BinlogPosition> for ReplicationOffset`
(connector.rs:96-119): split the file at the last dot, reject a suffix of
more than 17 characters or one that does not parse as `u128`, and pack
`(suffix length, suffix value, position)` into bits 123.., 64.. and 0..
of the 128-bit offset.  Errors are `ReadySetError::ReplicationFailed`
with the messages below. -/
def replicationOffsetOf (value : BinlogPosition) : Except String ReplicationOffset :=
  match rsplitOnce '.' value.binlog_file.toList with
  | none => .error ("Invalid binlog name " ++ value.binlog_file)
  | some (basename, suffix) =>
    if suffix.length > 17 then
      .error ("Invalid binlog suffix " ++ value.binlog_file)
    else
      match rustParseUnsigned (2 ^ 128) suffix with
      | none => .error ("Invalid binlog suffix " ++ value.binlog_file)
      | some s =>
        .ok { offset := ((suffix.length <<< 123) + (s <<< 64) + value.position) % 2 ^ 128
            , replication_log_name := String.mk basename }

/-- Render a `Nat` in decimal, as Rust's `Display` for integers does. -/
def natToDecimalString (n : Nat) : String :=
  String.mk (Nat.toDigits 10 n)

/-- Left-pad with ASCII zeros to a minimum width, as the Rust format
specifier `{:0width$}` does. -/
def zeroPad (width : Nat) (s : String) : String :=
  String.mk (List.replicate (width - s.length) '0') ++ s

/-- Embedding of `From<&ReplicationOffset> for BinlogPosition`
(connector.rs:130-145): bits 123.. give the suffix width, the suffix is
`(offset >> 64) as u32` (the `u32` cast truncates bits 96..123 away) and
the position is `offset as u32`; the file name is rebuilt as
basename, dot, zero-padded suffix. -/
def binlogPositionOf (val : ReplicationOffset) : BinlogPosition :=
  let suffix_len := (val.offset >>> 123) % 2 ^ 64
  let suffix := (val.offset >>> 64) % 2 ^ 32
  let position := val.offset % 2 ^ 32
  { binlog_file :=
      val.replication_log_name ++ "." ++ zeroPad suffix_len (natToDecimalString suffix)
  , position := position }

/-- Embedding of Rust `str::parse::<i64>`: optional sign, decimal digits,
overflow outside the `i64` range is a parse failure. -/
def rustParseI64 (s : List Char) : Option Int :=
  match s with
  | '-' :: rest =>
    match parseDigits rest with
    | some v => if v ≤ 2 ^ 63 then some (-(v : Int)) else none
    | none => none
  | _ =>
    match parseDigits (stripPlus s) with
    | some v => if v < 2 ^ 63 then some (v : Int) else none
    | none => none

/-- Embedding of `String::from_utf8_lossy` at the granularity the decimal
parsers and the dot split observe: bytes below 128 are their ASCII
characters, and every other byte maps to some character that is neither a
digit, a sign nor a dot, exactly like the multi-byte or replacement
characters of the lossy decoding. -/
def bytesToChars (b : List Nat) : List Char :=
  b.map (fun n => Char.ofNat (n % 256))

/-- Proleptic Gregorian date of a day count relative to 1970-01-01
(`civil_from_days`); this is the calendar `chrono` renders the epoch-second
argument of `NaiveDateTime::from_timestamp` into. -/
def civilFromDays (z : Int) : Int × Nat × Nat :=
  let zd : Int := z + 719468
  let era : Int := Int.fdiv zd 146097
  let doe : Nat := (zd - era * 146097).toNat
  let yoe : Nat := (doe - doe / 1460 + doe / 36524 - doe / 146096) / 365
  let doy : Nat := doe - (365 * yoe + yoe / 4 - yoe / 100)
  let mp : Nat := (5 * doy + 2) / 153
  let d : Nat := doy - (153 * mp + 2) / 5 + 1
  let m : Nat := if mp < 10 then mp + 3 else mp - 9
  ((yoe : Int) + era * 400 + (if m ≤ 2 then 1 else 0), m, d)

/-- A naive (timezone-free) calendar timestamp, the payload of
`chrono::naive::NaiveDateTime` as it reaches `DfValue`. -/
structure NaiveDateTime where
  year : Int
  month : Nat
  day : Nat
  hour : Nat
  minute : Nat
  second : Nat
  nanosecond : Nat
  deriving DecidableEq, Repr

/-- Embedding of `chrono::naive::NaiveDateTime::from_timestamp (secs, nsecs)`.
Total here; chrono panics outside roughly plus or minus 262000 years and for
`nsecs` of two billion or more, ranges no MySQL TIMESTAMP payload reaches. -/
def NaiveDateTime.fromTimestamp (secs : Int) (nsecs : Nat) : NaiveDateTime :=
  let days : Int := Int.fdiv secs 86400
  let sod : Nat := (secs - days * 86400).toNat
  match civilFromDays days with
  | (y, m, d) => ⟨y, m, d, sod / 3600, sod % 3600 / 60, sod % 60, nsecs⟩

/-- The MySQL column-type tag taken from the table map: the connector treats
`MYSQL_TYPE_TIMESTAMP2` specially and hands every other tag to the default
conversion. -/
inductive ColumnType
  | timestamp2
  | otherColumn (tag : Nat)
  deriving DecidableEq, Repr

/-- `mysql_common::value::Value` at the granularity the connector observes:
the `Bytes` payload it inspects, and non-`Bytes` variants it forwards
unchanged to the default conversion. -/
inductive MySqlValue
  | bytes (b : List Nat)
  | intVal (i : Int)
  | nullVal
  deriving DecidableEq, Repr

/-- `readyset_data::DfValue` at the granularity the connector produces. -/
inductive DfValue
  | none
  | timestampTz (dt : NaiveDateTime)
  | text (s : String)
  | byteArray (b : List Nat)
  | coerced (v : MySqlValue)
  deriving DecidableEq, Repr

/-- Modelled from the spec: "Every other value is passed through the default
type conversion" — the `TryFrom<mysql Value> for DfValue` impl lives in
`readyset_data`, outside the sources, so it is embedded as an injective
tagging of the value. -/
def defaultCoerce (val : MySqlValue) : Except String DfValue :=
  .ok (.coerced val)

/-- Embedding of `binlog_val_to_noria_val` (connector.rs:549-597): a
`Bytes` payload of a `TIMESTAMP2` column with meta `[0]` is ASCII decimal
epoch seconds (zero becomes `DfValue::None`, anything else a naive
timestamp with zero sub-second part); with any other meta it is
`"secs.frac"` and the fraction enters the timestamp multiplied by 32 as
nanoseconds (`usecs * 32` on `u32`, hence the reduction mod `2 ^ 32`).
Every other kind or value shape goes to the default conversion. The
`.error` results stand for the source's `unwrap` panics on malformed
payloads. -/
def binlog_val_to_noria_val (val : MySqlValue) (col_kind : ColumnType) (meta : List Nat) :
    Except String DfValue :=
  match val with
  | .bytes buf =>
    match col_kind, meta with
    | .timestamp2, [0] =>
      match rustParseI64 (bytesToChars buf) with
      | Option.none => .error "panic: timestamp payload is not an integer"
      | some epoch =>
        if epoch = 0 then .ok .none
        else .ok (.timestampTz (NaiveDateTime.fromTimestamp epoch 0))
    | .timestamp2, _ =>
      match splitOnce '.' (bytesToChars buf) with
      | Option.none => .error "panic: timestamp payload has no fractional part"
      | some (secsChars, usecsChars) =>
        match rustParseI64 secsChars, rustParseUnsigned (2 ^ 32) usecsChars with
        | some secs, some usecs =>
          .ok (.timestampTz (NaiveDateTime.fromTimestamp secs (usecs * 32 % 2 ^ 32)))
        | _, _ => .error "panic: timestamp payload is not seconds dot fraction"
    | _, _ => defaultCoerce val
  | _ => defaultCoerce val

/-- Outcome shapes of the external `mysql_common` jsonb-to-JSON conversion,
at the interface `binlog_row_to_noria_row` consumes: a jsonb value either
renders to JSON text, is an `Opaque` raw payload, or fails with invalid
UTF-8 or malformed jsonb. -/
inductive JsonbValue
  | renders (json : String)
  | opaqueVal (data : List Nat)
  | invalidUtf8 (msg : String)
  | invalidJsonb (msg : String)
  deriving DecidableEq, Repr

/-- The jsonb arm of `binlog_row_to_noria_row` (connector.rs:615-635):
rendered JSON becomes text, an opaque payload is emitted verbatim as raw
bytes, and the two failure shapes are decoding errors. -/
def jsonbCell (val : JsonbValue) : Except String DfValue :=
  match val with
  | .renders s => .ok (.text s)
  | .opaqueVal data => .ok (.byteArray data)
  | .invalidUtf8 msg => .error msg
  | .invalidJsonb msg => .error msg

/-- `mysql_common::binlog::value::BinlogValue`: a plain value, a jsonb
value, or the remaining variant (`JsonDiff`) the connector rejects. -/
inductive BinlogValue
  | value (v : MySqlValue)
  | jsonb (v : JsonbValue)
  | jsonDiff
  deriving DecidableEq, Repr

/-- `mysql_common::binlog::events::TableMapEvent` at the granularity the
connector reads: schema, table and the per-column type and metadata. -/
structure TableMapEvent where
  database_name : String
  table_name : String
  column_types : List ColumnType
  column_metadata : List (List Nat)
  deriving DecidableEq, Repr

/-- One cell of `binlog_row_to_noria_row` (connector.rs:605-638): plain
values consult the table map's column type and metadata at the cell's
index (a missing descriptor is the source's `unwrap` panic), jsonb cells
go through `jsonbCell`, and any other variant is a protocol error. -/
def noriaCell (tme : TableMapEvent) (idx : Nat) (cell : BinlogValue) : Except String DfValue :=
  match cell with
  | .value val =>
    match tme.column_types.get? idx, tme.column_metadata.get? idx with
    | some kind, some meta => binlog_val_to_noria_val val kind meta
    | _, _ => .error "panic: missing column descriptor"
  | .jsonb v => jsonbCell v
  | .jsonDiff => .error "Expected a value in WRITE_ROWS_EVENT"

/-- Index-tracking worker for `binlog_row_to_noria_row`: cells are
translated left to right and the first failure aborts, as the source's
`(0..len).map(..).collect::<Result<_>>()` does. -/
def rowCells (tme : TableMapEvent) : Nat → List BinlogValue → Except String (List DfValue)
  | _, [] => .ok []
  | idx, c :: cs =>
    match noriaCell tme idx c with
    | .error e => .error e
    | .ok v =>
      match rowCells tme (idx + 1) cs with
      | .error e => .error e
      | .ok vs => .ok (v :: vs)

/-- Embedding of `binlog_row_to_noria_row` (connector.rs:599-641). -/
def binlog_row_to_noria_row (row : List BinlogValue) (tme : TableMapEvent) :
    Except String (List DfValue) :=
  rowCells tme 0 row

/-- One CRC-32 bit round (reflected polynomial 0xEDB88320). -/
def crc32Round (c : Nat) : Nat :=
  if c % 2 = 1 then Nat.xor (c / 2) 0xEDB88320 else c / 2

/-- Fold one byte into a CRC-32 state. -/
def crc32Byte (crc b : Nat) : Nat :=
  let c := Nat.xor crc (b % 256)
  crc32Round (crc32Round (crc32Round (crc32Round
    (crc32Round (crc32Round (crc32Round (crc32Round c)))))))

/-- The CRC-32 checksum (IEEE, as MySQL's binlog CRC32) of a byte list;
this is what `event.calc_checksum(BINLOG_CHECKSUM_ALG_CRC32)` recomputes
over the event bytes. -/
def crc32 (data : List Nat) : Nat :=
  Nat.xor (data.foldl crc32Byte 0xFFFFFFFF) 0xFFFFFFFF

/-- `binlog::consts::BinlogChecksumAlg` as decoded from the footer byte. -/
inductive BinlogChecksumAlg
  | algOff
  | algCrc32
  | algUndef
  deriving DecidableEq, Repr

/-- Embedding of `footer().get_checksum_alg()`: an absent footer byte is
`Ok(None)`, bytes 0, 1 and 255 decode to the known algorithms, and any
other byte is an unknown-algorithm error. -/
def getChecksumAlg (raw : Option Nat) : Except Unit (Option BinlogChecksumAlg) :=
  match raw with
  | Option.none => .ok Option.none
  | some 0 => .ok (some .algOff)
  | some 1 => .ok (some .algCrc32)
  | some 255 => .ok (some .algUndef)
  | some _ => .error ()

/-- `u32::from_le_bytes` on a four-byte list (anything else is
unreachable in the source, where the checksum is `[u8; 4]`). -/
def u32FromLeBytes (b : List Nat) : Nat :=
  match b with
  | [b0, b1, b2, b3] => b0 % 256 + b1 % 256 * 2 ^ 8 + b2 % 256 * 2 ^ 16 + b3 % 256 * 2 ^ 24
  | _ => 0

/-- The typed payload of a decoded binlog event, one constructor per
`EventType` arm of `next_action_inner`; row events carry the
(before-image, after-image) pairs their `rows(tme)` iterator yields,
`unknownType` is the `event_type()` error arm and `ignorable` covers
every event type the connector ignores. -/
inductive EventData
  | rotate (name : String) (position : Nat)
  | query (updated_db_names : Option (List String)) (query_text : String)
  | tableMap (table_id : Nat) (tme : TableMapEvent)
  | writeRows (table_id : Nat) (rows : List (Option (List BinlogValue) × Option (List BinlogValue)))
  | updateRows (table_id : Nat) (rows : List (Option (List BinlogValue) × Option (List BinlogValue)))
  | deleteRows (table_id : Nat) (rows : List (Option (List BinlogValue) × Option (List BinlogValue)))
  | writeRowsV1
  | updateRowsV1
  | deleteRowsV1
  | gtid (gno : Nat)
  | unknownType (raw : Nat)
  | ignorable
  deriving DecidableEq, Repr

/-- A decoded binlog event: the header's `log_pos`, the typed payload,
and the raw bytes plus footer data the checksum validation consumes. -/
structure BinlogEvent where
  log_pos : Nat
  data : EventData
  event_bytes : List Nat
  footer_alg : Option Nat
  stored_checksum : Option (List Nat)
  deriving DecidableEq, Repr

/-- Embedding of `MySqlBinlogConnector::validate_event_checksum`
(connector.rs:185-197): only a footer advertising CRC32 is checked — the
stored checksum must exist and equal the recomputed CRC-32 of the event
bytes; every other footer state (off, undefined, absent, undecodable) is
accepted. -/
def validate_event_checksum (ev : BinlogEvent) : Bool :=
  match getChecksumAlg ev.footer_alg with
  | .ok (some .algCrc32) =>
    match ev.stored_checksum with
    | some checksum => u32FromLeBytes checksum == crc32 ev.event_bytes
    | Option.none => false
  | _ => true

/-- `readyset_client::TableOperation` as the connector emits it. -/
inductive TableOperation
  | insert (row : List DfValue)
  | deleteRow (row : List DfValue)
  deriving DecidableEq, Repr

/-- `nom_sql::Relation`: schema-qualified table name. -/
structure Relation where
  schema : Option String
  name : String
  deriving DecidableEq, Repr

/-- `crate::noria_adapter::ReplicationAction`; the parsed DDL changes are
kept opaque (they come from the external SQL parser). -/
inductive ReplicationAction
  | logPosition
  | ddlChange (schema : String) (changes : List String)
  | tableAction (table : Relation) (actions : List TableOperation) (txid : Option Nat)
  deriving DecidableEq, Repr

/-- The external DDL text classifier `ChangeList::from_str` consumed by the
QUERY arm, kept abstract: any function from the statement text to parsed
changes or an error. -/
def DdlParse : Type :=
  String → Except String (List String)

/-- The connector state the dispatcher reads and writes: the reader's
table-id cache, `next_position`, `current_gtid`, and the
`REPLICATOR_FAILURE` metrics counter the QUERY arm bumps on parse
failures. -/
structure ConnectorState where
  reader_tmes : List (Nat × TableMapEvent)
  next_position : BinlogPosition
  current_gtid : Option Nat
  failure_count : Nat
  deriving DecidableEq, Repr

/-- The connector state right after `connect`: empty table-map cache, the
configured starting position, no GTID seen yet. -/
def connectState (next_position : BinlogPosition) : ConnectorState :=
  { reader_tmes := [], next_position := next_position
  , current_gtid := Option.none, failure_count := 0 }

/-- `EventStreamReader::get_tme(table_id)`: the reader's table-map cache
lookup. -/
def lookupTme (tmes : List (Nat × TableMapEvent)) (id : Nat) : Option TableMapEvent :=
  (tmes.find? (fun p => p.1 == id)).map (fun p => p.2)

/-- The WRITE arm's per-row work (connector.rs:346-355): the after-image
must be present and is translated into an `Insert`. -/
def writeRowOp (tme : TableMapEvent) (r : Option (List BinlogValue) × Option (List BinlogValue)) :
    Except String TableOperation :=
  match r.2 with
  | Option.none => .error "Missing data in WRITE_ROWS_EVENT"
  | some row =>
    match binlog_row_to_noria_row row tme with
    | .error e => .error e
    | .ok nr => .ok (.insert nr)

/-- The UPDATE arm's per-row work (connector.rs:384-406): the before-image
must be present and is translated into a `DeleteRow`, then the after-image
must be present and is translated into an `Insert`, in that order. -/
def updateRowOps (tme : TableMapEvent) (r : Option (List BinlogValue) × Option (List BinlogValue)) :
    Except String (List TableOperation) :=
  match r.1 with
  | Option.none => .error "Missing before rows in UPDATE_ROWS_EVENT"
  | some before =>
    match binlog_row_to_noria_row before tme with
    | .error e => .error e
    | .ok delRow =>
      match r.2 with
      | Option.none => .error "Missing after rows in UPDATE_ROWS_EVENT"
      | some after =>
        match binlog_row_to_noria_row after tme with
        | .error e => .error e
        | .ok insRow => .ok [.deleteRow delRow, .insert insRow]

/-- The DELETE arm's per-row work (connector.rs:435-444): the before-image
must be present and is translated into a `DeleteRow`. -/
def deleteRowOp (tme : TableMapEvent) (r : Option (List BinlogValue) × Option (List BinlogValue)) :
    Except String TableOperation :=
  match r.1 with
  | Option.none => .error "Missing data in DELETE_ROWS_EVENT"
  | some row =>
    match binlog_row_to_noria_row row tme with
    | .error e => .error e
    | .ok nr => .ok (.deleteRow nr)

/-- What one loop iteration of `next_action_inner` does after handling an
event: return an action to the caller, or go round the loop again. -/
inductive StepOutcome
  | yield (action : ReplicationAction)
  | nextLoop
  deriving DecidableEq, Repr

/-- One iteration of the `next_action_inner` loop body over an already
fetched event (connector.rs:244-535), including what `next_event` did for
it: the checksum assertion, the reader's implicit table-map caching, the
`next_position.position := header.log_pos` update, and the dispatch on
the event type.  `.error` covers every fatal outcome — failed checksum
assertion, unknown event type, V1 row events (`unimplemented`), missing
table map, missing row image and row translation failures. -/
def dispatchEvent (parse : DdlParse) (st : ConnectorState) (ev : BinlogEvent) :
    Except String (ConnectorState × StepOutcome) :=
  if validate_event_checksum ev = false then
    .error "assertion failed: validate_event_checksum"
  else
    let st1 : ConnectorState :=
      match ev.data with
      | .tableMap id tme => { st with reader_tmes := (id, tme) :: st.reader_tmes }
      | _ => st
    let st2 : ConnectorState :=
      { st1 with next_position := { st1.next_position with position := ev.log_pos } }
    match ev.data with
    | .rotate name pos =>
      if pos < 2 ^ 32 then
        .ok ({ st2 with next_position := ⟨name, pos⟩ }, .yield .logPosition)
      else
        .error "panic: rotate position exceeds u32"
    | .query updated q =>
      match updated with
      | some (first :: _) =>
        match parse q with
        | .ok changes => .ok (st2, .yield (.ddlChange first changes))
        | .error _ => .ok ({ st2 with failure_count := st2.failure_count + 1 }, .nextLoop)
      | _ => .ok (st2, .nextLoop)
    | .tableMap _ _ => .ok (st2, .nextLoop)
    | .writeRows id rows =>
      match lookupTme st2.reader_tmes id with
      | Option.none => .error "TME not found for WRITE_ROWS_EVENT"
      | some tme =>
        match rows.mapM (writeRowOp tme) with
        | .error e => .error e
        | .ok ops =>
          .ok (st2, .yield (.tableAction ⟨some tme.database_name, tme.table_name⟩
            ops st2.current_gtid))
    | .updateRows id rows =>
      match lookupTme st2.reader_tmes id with
      | Option.none => .error "TME not found for UPDATE_ROWS_EVENT"
      | some tme =>
        match rows.mapM (updateRowOps tme) with
        | .error e => .error e
        | .ok opss =>
          .ok (st2, .yield (.tableAction ⟨some tme.database_name, tme.table_name⟩
            opss.flatten st2.current_gtid))
    | .deleteRows id rows =>
      match lookupTme st2.reader_tmes id with
      | Option.none => .error "TME not found for UPDATE_ROWS_EVENT"
      | some tme =>
        match rows.mapM (deleteRowOp tme) with
        | .error e => .error e
        | .ok ops =>
          .ok (st2, .yield (.tableAction ⟨some tme.database_name, tme.table_name⟩
            ops st2.current_gtid))
    | .writeRowsV1 => .error "unimplemented: V1 rows event"
    | .updateRowsV1 => .error "unimplemented: V1 rows event"
    | .deleteRowsV1 => .error "unimplemented: V1 rows event"
    | .gtid gno => .ok ({ st2 with current_gtid := some gno }, .nextLoop)
    | .unknownType raw => .error ("Unknown binlog event type " ++ natToDecimalString raw)
    | .ignorable => .ok (st2, .nextLoop)

/-- Rust `self.next_position >= limit` through the `PartialOrd` impl:
true exactly when the comparison yields `Greater` or `Equal`. -/
def positionGe (a b : BinlogPosition) : Bool :=
  match positionCmp a b with
  | some Ordering.gt => true
  | some Ordering.eq => true
  | _ => false

/-- Embedding of `next_action_inner(until)` (connector.rs:238-546) over a
stream of events modelled as a list: handle events in order until one
yields an action (returned together with `next_position`), checking the
optional `until` bound after every non-yielding event; an exhausted list
models a stream that never produces another event, so no action is
returned. -/
def next_action_inner (parse : DdlParse) (untilBound : Option ReplicationOffset) :
    ConnectorState → List BinlogEvent →
    Except String (ConnectorState × Option (ReplicationAction × BinlogPosition))
  | st, [] => .ok (st, Option.none)
  | st, ev :: rest =>
    match dispatchEvent parse st ev with
    | .error e => .error e
    | .ok (st1, .yield a) => .ok (st1, some (a, st1.next_position))
    | .ok (st1, .nextLoop) =>
      match untilBound with
      | some limit =>
        if positionGe st1.next_position (binlogPositionOf limit) then
          .ok (st1, some (.logPosition, st1.next_position))
        else
          next_action_inner parse untilBound st1 rest
      | Option.none => next_action_inner parse untilBound st1 rest

/-- All actions a session yields over a stream of events when
`next_action` is called repeatedly with no `until` bound: the
concatenation of the yields of the successive loop iterations, cut short
at a fatal error. -/
def emittedActions (parse : DdlParse) : ConnectorState → List BinlogEvent → List ReplicationAction
  | _, [] => []
  | st, ev :: rest =>
    match dispatchEvent parse st ev with
    | .error _ => []
    | .ok (st1, .yield a) => a :: emittedActions parse st1 rest
    | .ok (st1, .nextLoop) => emittedActions parse st1 rest

/-! Helper lemmas about the decimal parsers. -/

theorem digitVal_le_nine (c : Char) (d : Nat) (h : digitVal c = some d) : d ≤ 9 := by
  unfold digitVal at h
  split at h
  · injection h with h
    omega
  · cases h

theorem parseDigitsAux_lt :
    ∀ (l : List Char) (acc v : Nat), parseDigitsAux acc l = some v →
      v < (acc + 1) * 10 ^ l.length := by
  intro l
  induction l with
  | nil =>
    intro acc v h
    simp only [parseDigitsAux, Option.some.injEq] at h
    subst h
    simp only [List.length_nil, pow_zero, mul_one]
    omega
  | cons c cs ih =>
    intro acc v h
    simp only [parseDigitsAux] at h
    cases hd : digitVal c with
    | none =>
      rw [hd] at h
      cases h
    | some d =>
      rw [hd] at h
      have hd9 : d ≤ 9 := digitVal_le_nine c d hd
      have hrec := ih (acc * 10 + d) v h
      have hmul : (acc * 10 + d + 1) * 10 ^ cs.length ≤ (acc + 1) * 10 ^ (c :: cs).length := by
        simp only [List.length_cons, pow_succ]
        have : acc * 10 + d + 1 ≤ (acc + 1) * 10 := by omega
        calc (acc * 10 + d + 1) * 10 ^ cs.length
            ≤ (acc + 1) * 10 * 10 ^ cs.length := Nat.mul_le_mul_right _ this
          _ = (acc + 1) * (10 ^ cs.length * 10) := by ring
      exact Nat.lt_of_lt_of_le hrec hmul

theorem parseDigits_lt (l : List Char) (v : Nat) (h : parseDigits l = some v) :
    v < 10 ^ l.length := by
  cases l with
  | nil => cases h
  | cons c cs =>
    have := parseDigitsAux_lt (c :: cs) 0 v h
    simpa using this

theorem stripPlus_length_le (s : List Char) : (stripPlus s).length ≤ s.length := by
  unfold stripPlus
  split
  · simp
  · exact Nat.le_refl _

theorem rustParseUnsigned_inv (bound : Nat) (s : List Char) (v : Nat)
    (h : rustParseUnsigned bound s = some v) :
    parseDigits (stripPlus s) = some v ∧ v < bound := by
  unfold rustParseUnsigned at h
  split at h
  · rename_i w hp
    by_cases hb : w < bound
    · rw [if_pos hb] at h
      injection h with h
      subst h
      exact ⟨hp, hb⟩
    · rw [if_neg hb] at h
      cases h
  · cases h

theorem rustParseUnsigned_lt_pow (bound : Nat) (s : List Char) (v : Nat)
    (h : rustParseUnsigned bound s = some v) : v < 10 ^ s.length := by
  obtain ⟨hp, _⟩ := rustParseUnsigned_inv bound s v h
  have h1 := parseDigits_lt _ v hp
  exact Nat.lt_of_lt_of_le h1
    (Nat.pow_le_pow_right (by omega) (stripPlus_length_le s))

/-- The two suffix parses the connector performs on the same suffix (as
`u64` in the ordering, as `u128` in the offset packing) agree on the
value whenever both succeed. -/
theorem rustParseUnsigned_agree (b1 b2 : Nat) (s : List Char) (v w : Nat)
    (h1 : rustParseUnsigned b1 s = some v) (h2 : rustParseUnsigned b2 s = some w) :
    v = w := by
  obtain ⟨hp1, _⟩ := rustParseUnsigned_inv b1 s v h1
  obtain ⟨hp2, _⟩ := rustParseUnsigned_inv b2 s w h2
  rw [hp1] at hp2
  injection hp2

/-- Successful encoding forces the suffix to be at most 17 characters, to
parse as `u128`, and pins down the packed offset. -/
theorem replicationOffsetOf_ok (p : BinlogPosition) (o : ReplicationOffset)
    (bn sf : List Char)
    (hsplit : rsplitOnce '.' p.binlog_file.toList = some (bn, sf))
    (h : replicationOffsetOf p = .ok o) :
    ∃ v, rustParseUnsigned (2 ^ 128) sf = some v ∧ sf.length ≤ 17 ∧
      o.offset = ((sf.length <<< 123) + (v <<< 64) + p.position) % 2 ^ 128 := by
  unfold replicationOffsetOf at h
  split at h
  · cases h
  · rename_i bn2 sf2 heq
    rw [hsplit] at heq
    injection heq with heq
    have hbn : bn = bn2 := congrArg Prod.fst heq
    have hsf : sf = sf2 := congrArg Prod.snd heq
    subst hbn
    subst hsf
    split at h
    · cases h
    · rename_i hlen
      split at h
      · cases h
      · rename_i v hp
        refine ⟨v, hp, by omega, ?_⟩
        cases h
        rfl

/-- Case analysis of a strictly-less comparison between two positions. -/
theorem positionCmp_lt_cases (a b : BinlogPosition)
    (h : positionCmp a b = some Ordering.lt) :
    (a.binlog_file = b.binlog_file ∧ a.position < b.position)
    ∨ (a.binlog_file ≠ b.binlog_file ∧
       ∃ bn sa sb va vb,
         rsplitOnce '.' a.binlog_file.toList = some (bn, sa) ∧
         rsplitOnce '.' b.binlog_file.toList = some (bn, sb) ∧
         rustParseUnsigned (2 ^ 64) sa = some va ∧
         rustParseUnsigned (2 ^ 64) sb = some vb ∧ va < vb) := by
  unfold positionCmp at h
  by_cases hf : a.binlog_file = b.binlog_file
  · rw [if_pos hf] at h
    injection h with h
    exact Or.inl ⟨hf, Nat.compare_eq_lt.mp h⟩
  · rw [if_neg hf] at h
    refine Or.inr ⟨hf, ?_⟩
    split at h
    · rename_i ba sa bb sb heqa heqb
      by_cases hbb : ba = bb
      · rw [if_pos hbb] at h
        subst hbb
        split at h
        · rename_i va vb hva hvb
          injection h with h
          exact ⟨ba, sa, sb, va, vb, heqa, heqb, hva, hvb, Nat.compare_eq_lt.mp h⟩
        · cases h
      · rw [if_neg hbb] at h
        cases h
    · cases h

/-- C1 (code bug evidence): the position with file `bin.4294967296` — a
purely decimal suffix of width 10, inside the claimed-valid range [1,17] —
encodes successfully, but decoding truncates the 59-bit suffix field with
an `as u32` cast, so decode after encode yields `bin.0000000000` instead
of the original file name: the round-trip is not the identity. -/
theorem c1_roundtrip_truncates_wide_suffix :
    (replicationOffsetOf ⟨"bin.4294967296", 0⟩).map binlogPositionOf
      = .ok ⟨"bin.0000000000", 0⟩
    ∧ ("bin.0000000000" : String) ≠ "bin.4294967296" :=
  ⟨by decide, by decide⟩

/-- C2 (counterexample): `("bin.01", 0)` and `("bin.1", 100)` have equal
basenames and equal numeric suffixes, so the claim requires the tie to be
broken on the offsets (0 versus 100, hence `Less`), but the code compares
offsets only for byte-identical file names and returns `Equal` here. -/
theorem c2_counterexample :
    positionCmp ⟨"bin.01", 0⟩ ⟨"bin.1", 100⟩ = some Ordering.eq
    ∧ compare (0 : Nat) 100 = Ordering.lt :=
  ⟨rfl, rfl⟩

/-- C2 (amended): comparison of byte-identical file names is the
comparison of the offsets; otherwise both names are split at the last
dot, differing basenames are incomparable, and equal basenames compare by
the parsed numeric suffixes alone — with no offset tie-break.  The two
concrete comparisons of the claim hold as stated. -/
theorem c2_ordering_description :
    (∀ a b : BinlogPosition, a.binlog_file = b.binlog_file →
      positionCmp a b = some (compare a.position b.position))
    ∧ (∀ a b : BinlogPosition, ∀ ba sa bb sb : List Char,
        a.binlog_file ≠ b.binlog_file →
        rsplitOnce '.' a.binlog_file.toList = some (ba, sa) →
        rsplitOnce '.' b.binlog_file.toList = some (bb, sb) →
        ba ≠ bb → positionCmp a b = none)
    ∧ (∀ a b : BinlogPosition, ∀ ba sa bb sb : List Char, ∀ va vb : Nat,
        a.binlog_file ≠ b.binlog_file →
        rsplitOnce '.' a.binlog_file.toList = some (ba, sa) →
        rsplitOnce '.' b.binlog_file.toList = some (bb, sb) →
        ba = bb →
        rustParseUnsigned (2 ^ 64) sa = some va →
        rustParseUnsigned (2 ^ 64) sb = some vb →
        positionCmp a b = some (compare va vb))
    ∧ positionCmp ⟨"bin.000001", 100⟩ ⟨"bin.000002", 0⟩ = some Ordering.lt
    ∧ positionCmp ⟨"a.000001", 0⟩ ⟨"b.000001", 0⟩ = none := by
  refine ⟨?_, ?_, ?_, rfl, rfl⟩
  · intro a b h
    simp [positionCmp, h]
  · intro a b ba sa bb sb hne hsa hsb hbb
    unfold positionCmp
    rw [if_neg hne, hsa, hsb]
    simp [hbb]
  · intro a b ba sa bb sb va vb hne hsa hsb hbb hva hvb
    subst hbb
    unfold positionCmp
    rw [if_neg hne, hsa, hsb]
    norm_num at hva hvb
    simp [hva, hvb]

/-- Witness for the amended C2 theorem at concrete inputs. -/
theorem c2_ordering_description_witness :
    positionCmp ⟨"bin.7", 3⟩ ⟨"bin.7", 9⟩ = some (compare 3 9) :=
  c2_ordering_description.1 ⟨"bin.7", 3⟩ ⟨"bin.7", 9⟩ rfl

/-- C3 (counterexample): `bin.010` is strictly below `bin.11` in the
position order (suffix 10 against 11), both encode, yet the packed offset
of `bin.010` is the larger one because the suffix width occupies the top
bits: the 128-bit offset is not monotone in the position order. -/
theorem c3_counterexample :
    positionCmp ⟨"bin.010", 0⟩ ⟨"bin.11", 0⟩ = some Ordering.lt
    ∧ replicationOffsetOf ⟨"bin.010", 0⟩ = .ok ⟨3 <<< 123 + 10 <<< 64, "bin"⟩
    ∧ replicationOffsetOf ⟨"bin.11", 0⟩ = .ok ⟨2 <<< 123 + 11 <<< 64, "bin"⟩
    ∧ (2 <<< 123 + 11 <<< 64 : Nat) < 3 <<< 123 + 10 <<< 64 :=
  ⟨by decide, by decide, by decide, by decide⟩

/-- C3 (amended): the packed offset is strictly monotone in the position
order among positions of the same log family that encode successfully,
provided the suffix of the smaller position is written with at most as
many characters as that of the larger (as is the case for every real
binlog sequence, whose suffix widths never shrink). -/
theorem c3_offset_monotone
    (p q : BinlogPosition) (o1 o2 : ReplicationOffset) (bp sp bq sq : List Char)
    (h1 : replicationOffsetOf p = .ok o1)
    (h2 : replicationOffsetOf q = .ok o2)
    (hsp : rsplitOnce '.' p.binlog_file.toList = some (bp, sp))
    (hsq : rsplitOnce '.' q.binlog_file.toList = some (bq, sq))
    (hlen : sp.length ≤ sq.length)
    (hppos : p.position < 2 ^ 32)
    (hqpos : q.position < 2 ^ 32)
    (hlt : positionCmp p q = some Ordering.lt) :
    o1.offset < o2.offset := by
  obtain ⟨v1, hv1, hl1, ho1⟩ := replicationOffsetOf_ok p o1 bp sp hsp h1
  obtain ⟨v2, hv2, hl2, ho2⟩ := replicationOffsetOf_ok q o2 bq sq hsq h2
  have hv1b : v1 < 10 ^ 17 :=
    Nat.lt_of_lt_of_le (rustParseUnsigned_lt_pow _ sp v1 hv1)
      (Nat.pow_le_pow_right (by omega) hl1)
  have hv2b : v2 < 10 ^ 17 :=
    Nat.lt_of_lt_of_le (rustParseUnsigned_lt_pow _ sq v2 hv2)
      (Nat.pow_le_pow_right (by omega) hl2)
  have hmod1 : (sp.length <<< 123) + (v1 <<< 64) + p.position < 2 ^ 128 := by
    rw [Nat.shiftLeft_eq, Nat.shiftLeft_eq]
    omega
  have hmod2 : (sq.length <<< 123) + (v2 <<< 64) + q.position < 2 ^ 128 := by
    rw [Nat.shiftLeft_eq, Nat.shiftLeft_eq]
    omega
  rw [ho1, ho2, Nat.mod_eq_of_lt hmod1, Nat.mod_eq_of_lt hmod2]
  rw [Nat.shiftLeft_eq, Nat.shiftLeft_eq, Nat.shiftLeft_eq, Nat.shiftLeft_eq]
  rcases positionCmp_lt_cases p q hlt with ⟨hf, hpos⟩ | ⟨_, bn, sa, sb, va, vb, hsa, hsb, hva, hvb, hvlt⟩
  · rw [hf] at hsp
    rw [hsp] at hsq
    simp only [Option.some.injEq, Prod.mk.injEq] at hsq
    obtain ⟨hbps, hsps⟩ := hsq
    subst hsps
    rw [hv1] at hv2
    simp only [Option.some.injEq] at hv2
    subst hv2
    omega
  · rw [hsa] at hsp
    simp only [Option.some.injEq, Prod.mk.injEq] at hsp
    obtain ⟨hb1, hs1⟩ := hsp
    subst hs1
    rw [hsb] at hsq
    simp only [Option.some.injEq, Prod.mk.injEq] at hsq
    obtain ⟨hb2, hs2⟩ := hsq
    subst hs2
    have hev1 : va = v1 := rustParseUnsigned_agree _ _ _ _ _ hva hv1
    have hev2 : vb = v2 := rustParseUnsigned_agree _ _ _ _ _ hvb hv2
    subst hev1
    subst hev2
    omega

/-- Witness for the amended C3 theorem at concrete inputs. -/
theorem c3_offset_monotone_witness :
    (⟨((6 : Nat) <<< 123 + 1 <<< 64 + 4) % 2 ^ 128, "bin"⟩ : ReplicationOffset).offset
      < (⟨((6 : Nat) <<< 123 + 2 <<< 64 + 0) % 2 ^ 128, "bin"⟩ : ReplicationOffset).offset :=
  c3_offset_monotone ⟨"bin.000001", 4⟩ ⟨"bin.000002", 0⟩
    ⟨((6 <<< 123) + (1 <<< 64) + 4) % 2 ^ 128, "bin"⟩
    ⟨((6 <<< 123) + (2 <<< 64) + 0) % 2 ^ 128, "bin"⟩
    "bin".toList "000001".toList "bin".toList "000002".toList
    (by decide) (by decide) (by decide) (by decide)
    (by decide) (by decide) (by decide) (by decide)

/-- C10: comparison of two positions whose file strings are byte-identical
is exactly the comparison of their offsets, with no validation of the file
name format — dot-free and non-decimal file names included — while two
differing malformed names take the validation path and are incomparable. -/
theorem c10_identical_file_offset_compare :
    (∀ a b : BinlogPosition, a.binlog_file = b.binlog_file →
      positionCmp a b = some (compare a.position b.position))
    ∧ positionCmp ⟨"no-dot-name", 3⟩ ⟨"no-dot-name", 7⟩ = some Ordering.lt
    ∧ positionCmp ⟨"bin.xyz", 3⟩ ⟨"bin.xyz", 7⟩ = some Ordering.lt
    ∧ positionCmp ⟨"no-dot-a", 3⟩ ⟨"no-dot-b", 7⟩ = none := by
  refine ⟨?_, rfl, rfl, rfl⟩
  intro a b h
  simp [positionCmp, h]

/-- Witness for the C10 theorem at concrete inputs. -/
theorem c10_identical_file_offset_compare_witness :
    positionCmp ⟨"abc", 1⟩ ⟨"abc", 2⟩ = some (compare 1 2) :=
  c10_identical_file_offset_compare.1 ⟨"abc", 1⟩ ⟨"abc", 2⟩ rfl

/-- C5: an event whose footer advertises CRC32 and stores a checksum is
validated by recomputing the CRC-32 over the event bytes and comparing;
a mismatch fails the validation and makes `next_action` fail without
emitting any action; an event whose footer algorithm is off (`NONE`) or
absent is accepted with no comparison at all. -/
theorem c5_checksum_enforcement :
    (∀ (ev : BinlogEvent) (cs : List Nat), ev.footer_alg = some 1 →
      ev.stored_checksum = some cs →
      validate_event_checksum ev = (u32FromLeBytes cs == crc32 ev.event_bytes))
    ∧ (∀ (ev : BinlogEvent) (cs : List Nat), ev.footer_alg = some 1 →
      ev.stored_checksum = some cs →
      u32FromLeBytes cs ≠ crc32 ev.event_bytes →
      validate_event_checksum ev = false
      ∧ ∀ (parse : DdlParse) (lim : Option ReplicationOffset) (st : ConnectorState)
          (rest : List BinlogEvent),
          next_action_inner parse lim st (ev :: rest)
            = .error "assertion failed: validate_event_checksum")
    ∧ (∀ ev : BinlogEvent, ev.footer_alg = some 0 ∨ ev.footer_alg = Option.none →
      validate_event_checksum ev = true) := by
  refine ⟨?_, ?_, ?_⟩
  · intro ev cs h1 h2
    simp [validate_event_checksum, getChecksumAlg, h1, h2]
  · intro ev cs h1 h2 hne
    have hval : validate_event_checksum ev = false := by
      simp [validate_event_checksum, getChecksumAlg, h1, h2, hne]
    refine ⟨hval, ?_⟩
    intro parse lim st rest
    simp [next_action_inner, dispatchEvent, hval]
  · intro ev h
    rcases h with h | h <;> simp [validate_event_checksum, getChecksumAlg, h]

/-- Witness for the C5 theorem at a concrete event: empty event bytes have
CRC-32 zero, so a stored checksum of `[1, 2, 3, 4]` mismatches and the
validation fails. -/
theorem c5_checksum_enforcement_witness :
    validate_event_checksum
      { log_pos := 0, data := .ignorable, event_bytes := [],
        footer_alg := some 1, stored_checksum := some [1, 2, 3, 4] } = false :=
  (c5_checksum_enforcement.2.1
    { log_pos := 0, data := .ignorable, event_bytes := [],
      footer_alg := some 1, stored_checksum := some [1, 2, 3, 4] }
    [1, 2, 3, 4] rfl rfl (by decide)).1

/-- C8: coercion of a `TIMESTAMP2` binlog value.  With meta `[0]` the
payload is ASCII decimal epoch seconds: zero becomes `NULL` and any other
value the naive UTC timestamp at that second with zero sub-second part
(`b"1700000000"` gives 2023-11-14T22:13:20); with any other meta the
payload is seconds, dot, fraction, and the result carries the fraction
times 32 as nanoseconds. -/
theorem c8_timestamp2_coercion :
    (∀ buf : List Nat, rustParseI64 (bytesToChars buf) = some 0 →
      binlog_val_to_noria_val (.bytes buf) .timestamp2 [0] = .ok .none)
    ∧ (∀ (buf : List Nat) (n : Int), rustParseI64 (bytesToChars buf) = some n → n ≠ 0 →
      binlog_val_to_noria_val (.bytes buf) .timestamp2 [0]
        = .ok (.timestampTz (NaiveDateTime.fromTimestamp n 0))
      ∧ (NaiveDateTime.fromTimestamp n 0).nanosecond = 0)
    ∧ binlog_val_to_noria_val (.bytes [49, 55, 48, 48, 48, 48, 48, 48, 48, 48]) .timestamp2 [0]
        = .ok (.timestampTz ⟨2023, 11, 14, 22, 13, 20, 0⟩)
    ∧ (∀ (buf meta : List Nat) (secsChars fracChars : List Char) (secs : Int) (frac : Nat),
        meta ≠ [0] →
        splitOnce '.' (bytesToChars buf) = some (secsChars, fracChars) →
        rustParseI64 secsChars = some secs →
        rustParseUnsigned (2 ^ 32) fracChars = some frac →
        frac ≤ 999999 →
        binlog_val_to_noria_val (.bytes buf) .timestamp2 meta
          = .ok (.timestampTz (NaiveDateTime.fromTimestamp secs (frac * 32)))) := by
  refine ⟨?_, ?_, by decide, ?_⟩
  · intro buf h
    simp [binlog_val_to_noria_val, h]
  · intro buf n h hne
    exact ⟨by simp [binlog_val_to_noria_val, h, hne], rfl⟩
  · intro buf meta secsChars fracChars secs frac hmeta hsplit hsecs hfrac hle
    have hm : frac * 32 % 2 ^ 32 = frac * 32 := Nat.mod_eq_of_lt (by omega)
    norm_num at hfrac hm
    cases meta with
    | nil =>
      simp [binlog_val_to_noria_val, hsplit, hsecs, hfrac]
      rw [Nat.mod_eq_of_lt hm]
    | cons m ms =>
      cases m with
      | zero =>
        cases ms with
        | nil => exact absurd rfl hmeta
        | cons m2 ms2 =>
          simp [binlog_val_to_noria_val, hsplit, hsecs, hfrac]
          rw [Nat.mod_eq_of_lt hm]
      | succ m1 =>
        simp [binlog_val_to_noria_val, hsplit, hsecs, hfrac]
        rw [Nat.mod_eq_of_lt hm]

/-- Witness for the C8 theorem at concrete payloads. -/
theorem c8_timestamp2_coercion_witness :
    binlog_val_to_noria_val (.bytes [48]) .timestamp2 [0] = .ok .none :=
  c8_timestamp2_coercion.1 [48] (by decide)

/-- Shared inversion of a successful `dispatchEvent` step: the GTID state
is preserved except by a GTID event, which records its `gno`; every
yielded `TableAction` carries the pre-step `current_gtid` as `txid`; the
resulting position offset is the event header's `log_pos` except for a
ROTATE, which installs the file and position from the event body and
yields `LogPosition`. -/
theorem dispatchEvent_ok_inv (parse : DdlParse) (st : ConnectorState) (ev : BinlogEvent)
    (st' : ConnectorState) (out : StepOutcome)
    (h : dispatchEvent parse st ev = .ok (st', out)) :
    (st'.current_gtid = st.current_gtid
      ∨ ∃ gno, ev.data = .gtid gno ∧ st'.current_gtid = some gno)
    ∧ (∀ tbl ops tx, out = .yield (.tableAction tbl ops tx) → tx = st.current_gtid)
    ∧ ((∀ name pos, ev.data ≠ .rotate name pos) → st'.next_position.position = ev.log_pos)
    ∧ (∀ name pos, ev.data = .rotate name pos →
        st'.next_position = ⟨name, pos⟩ ∧ out = .yield .logPosition) := by
  unfold dispatchEvent at h
  split at h
  · cases h
  · cases hd : ev.data
    case rotate name pos =>
      simp only [hd] at h
      split at h
      · cases h
        refine ⟨Or.inl rfl, ?_, ?_, ?_⟩
        · intro tbl ops tx heq
          simp at heq
        · intro hnrot
          exact absurd rfl (hnrot name pos)
        · intro name2 pos2 heq
          cases heq
          exact ⟨rfl, rfl⟩
      · cases h
    case query updated q =>
      simp only [hd] at h
      split at h
      · split at h
        · cases h
          refine ⟨Or.inl rfl, ?_, fun _ => rfl, ?_⟩
          · intro tbl ops tx heq
            simp at heq
          · intro name pos heq
            cases heq
        · cases h
          refine ⟨Or.inl rfl, ?_, fun _ => rfl, ?_⟩
          · intro tbl ops tx heq
            cases heq
          · intro name pos heq
            cases heq
      · cases h
        refine ⟨Or.inl rfl, ?_, fun _ => rfl, ?_⟩
        · intro tbl ops tx heq
          cases heq
        · intro name pos heq
          cases heq
    case tableMap id tme =>
      simp only [hd] at h
      cases h
      refine ⟨Or.inl rfl, ?_, fun _ => rfl, ?_⟩
      · intro tbl ops tx heq
        cases heq
      · intro name pos heq
        cases heq
    case writeRows id rows =>
      simp only [hd] at h
      split at h
      · cases h
      · split at h
        · cases h
        · cases h
          refine ⟨Or.inl rfl, ?_, fun _ => rfl, ?_⟩
          · intro tbl ops tx heq
            simp only [StepOutcome.yield.injEq, ReplicationAction.tableAction.injEq] at heq
            exact heq.2.2.symm
          · intro name pos heq
            cases heq
    case updateRows id rows =>
      simp only [hd] at h
      split at h
      · cases h
      · split at h
        · cases h
        · cases h
          refine ⟨Or.inl rfl, ?_, fun _ => rfl, ?_⟩
          · intro tbl ops tx heq
            simp only [StepOutcome.yield.injEq, ReplicationAction.tableAction.injEq] at heq
            exact heq.2.2.symm
          · intro name pos heq
            cases heq
    case deleteRows id rows =>
      simp only [hd] at h
      split at h
      · cases h
      · split at h
        · cases h
        · cases h
          refine ⟨Or.inl rfl, ?_, fun _ => rfl, ?_⟩
          · intro tbl ops tx heq
            simp only [StepOutcome.yield.injEq, ReplicationAction.tableAction.injEq] at heq
            exact heq.2.2.symm
          · intro name pos heq
            cases heq
    case writeRowsV1 =>
      simp only [hd] at h
      cases h
    case updateRowsV1 =>
      simp only [hd] at h
      cases h
    case deleteRowsV1 =>
      simp only [hd] at h
      cases h
    case gtid gno =>
      simp only [hd] at h
      cases h
      refine ⟨Or.inr ⟨gno, rfl, rfl⟩, ?_, fun _ => rfl, ?_⟩
      · intro tbl ops tx heq
        cases heq
      · intro name pos heq
        cases heq
    case unknownType raw =>
      simp only [hd] at h
      cases h
    case ignorable =>
      simp only [hd] at h
      cases h
      refine ⟨Or.inl rfl, ?_, fun _ => rfl, ?_⟩
      · intro tbl ops tx heq
        cases heq
      · intro name pos heq
        cases heq

/-- Every `TableAction` produced over a GTID-free stretch of events
carries the `current_gtid` the state held when the stretch began. -/
theorem emittedActions_txid (parse : DdlParse) :
    ∀ (evs : List BinlogEvent) (st : ConnectorState),
      (∀ e ∈ evs, ∀ gno, e.data ≠ EventData.gtid gno) →
      ∀ tbl ops tx, ReplicationAction.tableAction tbl ops tx ∈ emittedActions parse st evs →
        tx = st.current_gtid := by
  intro evs
  induction evs with
  | nil =>
    intro st hno tbl ops tx hm
    simp [emittedActions] at hm
  | cons ev rest ih =>
    intro st hno tbl ops tx hm
    unfold emittedActions at hm
    cases hdis : dispatchEvent parse st ev with
    | error e =>
      rw [hdis] at hm
      have hm2 : ReplicationAction.tableAction tbl ops tx ∈ ([] : List ReplicationAction) := hm
      simp at hm2
    | ok pr =>
      obtain ⟨st1, out⟩ := pr
      rw [hdis] at hm
      have hng : ∀ gno, ev.data ≠ EventData.gtid gno := hno ev (by simp)
      have hfacts := dispatchEvent_ok_inv parse st ev st1 out hdis
      have hpres : st1.current_gtid = st.current_gtid := by
        rcases hfacts.1 with hsame | ⟨gno, hg, _⟩
        · exact hsame
        · exact absurd hg (hng gno)
      have hrest : ∀ e ∈ rest, ∀ gno, e.data ≠ EventData.gtid gno :=
        fun e he => hno e (List.mem_cons_of_mem _ he)
      cases out with
      | nextLoop =>
        have hm2 : ReplicationAction.tableAction tbl ops tx ∈ emittedActions parse st1 rest := hm
        rw [← hpres]
        exact ih st1 hrest tbl ops tx hm2
      | yield a =>
        have hm2 : ReplicationAction.tableAction tbl ops tx ∈ a :: emittedActions parse st1 rest := hm
        rcases List.mem_cons.mp hm2 with heq | hm3
        · exact hfacts.2.1 tbl ops tx (by rw [heq])
        · rw [← hpres]
          exact ih st1 hrest tbl ops tx hm3

/-- C4: for UPDATE_ROWS, a row with both images yields exactly the two
operations `DeleteRow(before)` then `Insert(after)`; a missing image is a
protocol error; the dispatcher concatenates the per-row pairs in order
and any per-row failure fails the whole call. -/
theorem c4_update_fanout :
    (∀ (tme : TableMapEvent) (before after : List BinlogValue)
        (delRow insRow : List DfValue),
      binlog_row_to_noria_row before tme = .ok delRow →
      binlog_row_to_noria_row after tme = .ok insRow →
      updateRowOps tme (some before, some after)
        = .ok [.deleteRow delRow, .insert insRow])
    ∧ (∀ (tme : TableMapEvent) (after : Option (List BinlogValue)),
      updateRowOps tme (Option.none, after)
        = .error "Missing before rows in UPDATE_ROWS_EVENT")
    ∧ (∀ (tme : TableMapEvent) (before : List BinlogValue) (delRow : List DfValue),
      binlog_row_to_noria_row before tme = .ok delRow →
      updateRowOps tme (some before, Option.none)
        = .error "Missing after rows in UPDATE_ROWS_EVENT")
    ∧ (∀ (parse : DdlParse) (st : ConnectorState) (ev : BinlogEvent) (id : Nat)
        (rows : List (Option (List BinlogValue) × Option (List BinlogValue)))
        (tme : TableMapEvent) (opss : List (List TableOperation)),
      ev.data = .updateRows id rows →
      validate_event_checksum ev = true →
      lookupTme st.reader_tmes id = some tme →
      rows.mapM (updateRowOps tme) = .ok opss →
      dispatchEvent parse st ev
        = .ok ({ st with next_position := { st.next_position with position := ev.log_pos } },
            .yield (.tableAction ⟨some tme.database_name, tme.table_name⟩
              opss.flatten st.current_gtid)))
    ∧ (∀ (parse : DdlParse) (st : ConnectorState) (ev : BinlogEvent) (id : Nat)
        (rows : List (Option (List BinlogValue) × Option (List BinlogValue)))
        (tme : TableMapEvent) (e : String),
      ev.data = .updateRows id rows →
      validate_event_checksum ev = true →
      lookupTme st.reader_tmes id = some tme →
      rows.mapM (updateRowOps tme) = .error e →
      dispatchEvent parse st ev = .error e) := by
  refine ⟨?_, ?_, ?_, ?_, ?_⟩
  · intro tme before after delRow insRow h1 h2
    simp [updateRowOps, h1, h2]
  · intro tme after
    simp [updateRowOps]
  · intro tme before delRow h1
    simp [updateRowOps, h1]
  · intro parse st ev id rows tme opss hdata hval hlook hmap
    obtain ⟨lp, data, ebytes, falg, sc⟩ := ev
    dsimp only at hdata
    subst hdata
    have hloop : List.mapM.loop (updateRowOps tme) rows [] = Except.ok opss := hmap
    simp [dispatchEvent, hval, hlook, hloop]
  · intro parse st ev id rows tme e hdata hval hlook hmap
    obtain ⟨lp, data, ebytes, falg, sc⟩ := ev
    dsimp only at hdata
    subst hdata
    have hloop : List.mapM.loop (updateRowOps tme) rows [] = Except.error e := hmap
    simp [dispatchEvent, hval, hlook, hloop]

/-- Witness for the C4 theorem at a concrete row pair. -/
theorem c4_update_fanout_witness :
    updateRowOps ⟨"db", "t", [], []⟩ (some [], some [])
      = .ok [.deleteRow [], .insert []] :=
  c4_update_fanout.1 ⟨"db", "t", [], []⟩ [] [] [] [] rfl rfl

/-- C6: a QUERY event naming at least one updated database whose text the
external DDL classifier rejects does not fail `next_action` and yields no
action: the failure counter is bumped and the loop continues with the
following events; any `dispatchEvent` error, by contrast, halts the
whole `next_action` call. -/
theorem c6_ddl_resilience :
    (∀ (parse : DdlParse) (st : ConnectorState) (ev : BinlogEvent)
        (firstDb : String) (names : List String) (q e : String),
      ev.data = .query (some (firstDb :: names)) q →
      validate_event_checksum ev = true →
      parse q = .error e →
      dispatchEvent parse st ev
        = .ok ({ st with
            next_position := { st.next_position with position := ev.log_pos },
            failure_count := st.failure_count + 1 }, .nextLoop))
    ∧ (∀ (parse : DdlParse) (st : ConnectorState) (ev : BinlogEvent)
        (firstDb : String) (names : List String) (q e : String)
        (rest : List BinlogEvent),
      ev.data = .query (some (firstDb :: names)) q →
      validate_event_checksum ev = true →
      parse q = .error e →
      next_action_inner parse Option.none st (ev :: rest)
        = next_action_inner parse Option.none
            { st with
              next_position := { st.next_position with position := ev.log_pos },
              failure_count := st.failure_count + 1 } rest)
    ∧ (∀ (parse : DdlParse) (lim : Option ReplicationOffset) (st : ConnectorState)
        (ev : BinlogEvent) (rest : List BinlogEvent) (e : String),
      dispatchEvent parse st ev = .error e →
      next_action_inner parse lim st (ev :: rest) = .error e) := by
  have hstep : ∀ (parse : DdlParse) (st : ConnectorState) (ev : BinlogEvent)
      (firstDb : String) (names : List String) (q e : String),
      ev.data = .query (some (firstDb :: names)) q →
      validate_event_checksum ev = true →
      parse q = .error e →
      dispatchEvent parse st ev
        = .ok ({ st with
            next_position := { st.next_position with position := ev.log_pos },
            failure_count := st.failure_count + 1 }, .nextLoop) := by
    intro parse st ev firstDb names q e hdata hval hparse
    obtain ⟨lp, data, ebytes, falg, sc⟩ := ev
    dsimp only at hdata
    subst hdata
    simp [dispatchEvent, hval, hparse]
  refine ⟨hstep, ?_, ?_⟩
  · intro parse st ev firstDb names q e rest hdata hval hparse
    rw [next_action_inner, hstep parse st ev firstDb names q e hdata hval hparse]
  · intro parse lim st ev rest e h
    rw [next_action_inner, h]

/-- Witness for the C6 theorem at a concrete QUERY event. -/
theorem c6_ddl_resilience_witness :
    dispatchEvent (fun _ => .error "no parse") (connectState ⟨"f.1", 0⟩)
      ⟨77, .query (some ["db1"]) "CREATE GIBBERISH", [], Option.none, Option.none⟩
      = .ok (⟨[], ⟨"f.1", 77⟩, Option.none, 1⟩, .nextLoop) :=
  c6_ddl_resilience.1 (fun _ => .error "no parse") (connectState ⟨"f.1", 0⟩)
    ⟨77, .query (some ["db1"]) "CREATE GIBBERISH", [], Option.none, Option.none⟩
    "db1" [] "CREATE GIBBERISH" "no parse" rfl rfl rfl

/-- C7: `current_gtid` starts out absent, is set to `gno` exactly by a
GTID event (which yields nothing), and every `TableAction` emitted over a
GTID-free stretch of events carries the `current_gtid` recorded when the
stretch began — so all actions between two consecutive GTID events share
the earlier event's `gno` as `txid`, and `None` before any GTID. -/
theorem c7_transaction_grouping :
    (∀ pos : BinlogPosition, (connectState pos).current_gtid = Option.none)
    ∧ (∀ (parse : DdlParse) (st : ConnectorState) (ev : BinlogEvent)
        (st' : ConnectorState) (out : StepOutcome) (gno : Nat),
      ev.data = .gtid gno →
      dispatchEvent parse st ev = .ok (st', out) →
      st'.current_gtid = some gno ∧ out = .nextLoop)
    ∧ (∀ (parse : DdlParse) (st : ConnectorState) (evs : List BinlogEvent),
      (∀ e ∈ evs, ∀ gno, e.data ≠ EventData.gtid gno) →
      ∀ tbl ops tx, ReplicationAction.tableAction tbl ops tx ∈ emittedActions parse st evs →
        tx = st.current_gtid) := by
  refine ⟨fun _ => rfl, ?_, ?_⟩
  · intro parse st ev st' out gno hdata hdisp
    obtain ⟨lp, data, ebytes, falg, sc⟩ := ev
    dsimp only at hdata
    subst hdata
    unfold dispatchEvent at hdisp
    split at hdisp
    · cases hdisp
    · simp only at hdisp
      cases hdisp
      exact ⟨rfl, rfl⟩
  · intro parse st evs hno tbl ops tx hm
    exact emittedActions_txid parse evs st hno tbl ops tx hm

/-- Witness for the C7 theorem: a TABLE_MAP then WRITE_ROWS stream with no
GTID event emits its table action with `txid = None`. -/
theorem c7_transaction_grouping_witness :
    (Option.none : Option Nat) = (connectState ⟨"f.1", 0⟩).current_gtid :=
  c7_transaction_grouping.2.2 (fun _ => .error "") (connectState ⟨"f.1", 0⟩)
    [⟨5, .tableMap 33 ⟨"db", "t", [], []⟩, [], Option.none, Option.none⟩,
     ⟨9, .writeRows 33 [(Option.none, some [])], [], Option.none, Option.none⟩]
    (by
      intro e he gno
      simp only [List.mem_cons, List.not_mem_nil, or_false] at he
      rcases he with rfl | rfl <;> simp)
    ⟨some "db", "t"⟩ [.insert []] Option.none
    (by decide)

/-- C9 (counterexample): a ROTATE event whose header `log_pos` is 500 but
whose body names position 4 yields a `LogPosition` whose offset is 4, the
body position — not the header's `log_pos` as the claim states for every
yielded action. -/
theorem c9_counterexample :
    next_action_inner (fun _ => .error "") Option.none (connectState ⟨"bin.000123", 4⟩)
        [⟨500, .rotate "bin.000124" 4, [], Option.none, Option.none⟩]
      = .ok (⟨[], ⟨"bin.000124", 4⟩, Option.none, 0⟩,
             some (.logPosition, ⟨"bin.000124", 4⟩))
    ∧ (4 : Nat) ≠ 500 :=
  ⟨by decide, by decide⟩

/-- C9 (amended): after any event is delivered, the returned position's
offset equals the event header's `log_pos` — for every yielded action and
for the `LogPosition` yielded at the `until` bound — except for a ROTATE
event, whose `LogPosition` instead carries the file name and position
taken from the ROTATE event body. -/
theorem c9_position_invariant :
    (∀ (parse : DdlParse) (st : ConnectorState) (ev : BinlogEvent)
        (st' : ConnectorState) (a : ReplicationAction),
      dispatchEvent parse st ev = .ok (st', .yield a) →
      (∀ name pos, ev.data ≠ .rotate name pos) →
      st'.next_position.position = ev.log_pos)
    ∧ (∀ (parse : DdlParse) (st : ConnectorState) (ev : BinlogEvent)
        (st' : ConnectorState) (out : StepOutcome) (name : String) (pos : Nat),
      ev.data = .rotate name pos →
      dispatchEvent parse st ev = .ok (st', out) →
      st'.next_position = ⟨name, pos⟩ ∧ out = .yield .logPosition)
    ∧ (∀ (parse : DdlParse) (st : ConnectorState) (ev : BinlogEvent)
        (st' : ConnectorState),
      dispatchEvent parse st ev = .ok (st', .nextLoop) →
      st'.next_position.position = ev.log_pos)
    ∧ (∀ (parse : DdlParse) (st : ConnectorState) (ev : BinlogEvent)
        (st' : ConnectorState) (a : ReplicationAction) (rest : List BinlogEvent)
        (lim : Option ReplicationOffset),
      dispatchEvent parse st ev = .ok (st', .yield a) →
      next_action_inner parse lim st (ev :: rest) = .ok (st', some (a, st'.next_position)))
    ∧ (∀ (parse : DdlParse) (st : ConnectorState) (ev : BinlogEvent)
        (st' : ConnectorState) (rest : List BinlogEvent) (lim : ReplicationOffset),
      dispatchEvent parse st ev = .ok (st', .nextLoop) →
      positionGe st'.next_position (binlogPositionOf lim) = true →
      next_action_inner parse (some lim) st (ev :: rest)
        = .ok (st', some (.logPosition, st'.next_position))) := by
  refine ⟨?_, ?_, ?_, ?_, ?_⟩
  · intro parse st ev st' a h hnrot
    exact (dispatchEvent_ok_inv parse st ev st' (.yield a) h).2.2.1 hnrot
  · intro parse st ev st' out name pos hdata h
    exact (dispatchEvent_ok_inv parse st ev st' out h).2.2.2 name pos hdata
  · intro parse st ev st' h
    refine (dispatchEvent_ok_inv parse st ev st' .nextLoop h).2.2.1 ?_
    intro name pos hdata
    have := ((dispatchEvent_ok_inv parse st ev st' .nextLoop h).2.2.2 name pos hdata).2
    cases this
  · intro parse st ev st' a rest lim h
    rw [next_action_inner, h]
  · intro parse st ev st' rest lim h hge
    rw [next_action_inner, h]
    simp [hge]

/-- Witness for the amended C9 theorem at a concrete ROTATE event. -/
theorem c9_position_invariant_witness :
    (⟨[], ⟨"bin.000124", 4⟩, Option.none, 0⟩ : ConnectorState).next_position
      = ⟨"bin.000124", 4⟩ :=
  (c9_position_invariant.2.1 (fun _ => .error "") (connectState ⟨"bin.000123", 4⟩)
    ⟨500, .rotate "bin.000124" 4, [], Option.none, Option.none⟩
    ⟨[], ⟨"bin.000124", 4⟩, Option.none, 0⟩ (.yield .logPosition)
    "bin.000124" 4 rfl (by decide)).1

end ReadysetBinlog
